import Mathlib

/-!
Shallow embedding of the Sharpe ratio calculation engine
(`backend/sharpe_utils.py`) and proofs of its specification claims.

Modelling conventions:
* A price series is `List (Option ℚ)`; `none` models the floating-point
  NaN used by the source as the missing-value marker.  Prices that are
  present are exact rationals (every Python float literal is rational).
* A return series is `List (Option ℝ)`; entries are `Real.log` of price
  quotients, `none` again modelling NaN propagation.
* Python exceptions become `Except` values.  `SharpeCalculationError`
  instances are classified by message into the closed taxonomy of the
  specification; a raw Python `TypeError` (which is not a
  `SharpeCalculationError`) is the separate constructor
  `PyError.typeError`.
* `np.std(xs, ddof=1)` on a single element divides 0 by 0, which is NaN
  in IEEE arithmetic; the embedding `sampleStd` therefore returns
  `Option ℝ` with `none` for NaN.  The source then evaluates
  `NaN == 0` to `False` and computes `mean / NaN * sqrt c = NaN`, so the
  engine yields NaN; the embedding returns `FloatVal.nan` on that path.
* The source function `calculate_sharpe_ratio` is embedded as
  `calculate_sharpe`, `batch_calculate_sharpe_ratios` as
  `batch_calculate_sharpe`, and its `is_partial_data` flag as `isPart`
  (shortened names only; the semantics is unchanged).
-/

namespace SharpeSpec

/-- Closed error taxonomy of the engine: each constructor corresponds to
one `SharpeCalculationError` message family of `sharpe_utils.py`. -/
inductive SharpeError where
  | unsupportedMethod
  | insufficientPoints
  | nonPositivePrice
  | invalidRateType
  | rateOutOfRange
  | calculationFailed
deriving DecidableEq

/-- A Python exception escaping an engine function: either a
`SharpeCalculationError` from the taxonomy, or a raw `TypeError` raised
by comparing a non-numeric value with a number. -/
inductive PyError where
  | sharpeError (e : SharpeError)
  | typeError
deriving DecidableEq

/-- The `risk_free_rate` argument as Python receives it: a numeric value
(modelled exactly as a rational) or some non-numeric object. -/
inductive RateInput where
  | num (r : ℚ)
  | nonNum
deriving DecidableEq

/-- A Python float result of the engine: NaN, one of the two infinities,
or an actual real value. -/
inductive FloatVal where
  | nan
  | posInf
  | negInf
  | val (x : ℝ)

/-- Ordered price series; `none` is the missing-value (NaN) marker. -/
abbrev PriceSeries := List (Option ℚ)

/-- One entry of `np.log(price_array[1:] / price_array[:-1])`:
NaN at either endpoint propagates to NaN, otherwise the log quotient. -/
noncomputable def logRet : Option ℚ → Option ℚ → Option ℝ
  | some p, some q => some (Real.log ((q : ℝ) / (p : ℝ)))
  | _, _ => none

/-- The vectorised `np.log(price_array[1:] / price_array[:-1])`. -/
noncomputable def logReturns (prices : PriceSeries) : List (Option ℝ) :=
  (prices.zip prices.tail).map (fun pq => logRet pq.1 pq.2)

/-- The elementwise test of `np.any(price_array <= 0)`.  In IEEE
arithmetic `NaN <= 0` is false, so a missing marker never triggers the
non-positive-price error. -/
def isNonPositive : Option ℚ → Bool
  | some p => decide (p ≤ 0)
  | none => false

/-- Embedding of `calculate_daily_returns(prices, method)`:
method check, length check, positivity check, then the log returns. -/
noncomputable def calculate_daily_returns (prices : PriceSeries) (method : String) :
    Except PyError (List (Option ℝ)) :=
  if method ≠ "log" then .error (.sharpeError .unsupportedMethod)
  else if prices.length < 2 then .error (.sharpeError .insufficientPoints)
  else if prices.any isNonPositive then .error (.sharpeError .nonPositivePrice)
  else .ok (logReturns prices)

/-- Python `int()` applied to a rational: truncation toward zero. -/
def pyInt (q : ℚ) : ℤ := if 0 ≤ q then ⌊q⌋ else ⌈q⌉

/-- Number of non-missing observations (`dropna` / `~np.isnan` filter). -/
def countValid (prices : PriceSeries) : ℕ := (prices.filterMap id).length

/-- Embedding of `has_sufficient_data(prices, min_years, trading_days_per_year)`:
`len(valid_prices) >= int(min_years * trading_days_per_year)`. -/
def has_sufficient_data (prices : PriceSeries) (min_years : ℚ)
    (trading_days_per_year : ℕ) : Bool :=
  pyInt (min_years * trading_days_per_year) ≤ (countValid prices : ℤ)

/-- Arithmetic mean of a list of reals (`np.mean`); unreachable for the
empty list inside the engine. -/
noncomputable def listMean (xs : List ℝ) : ℝ := xs.sum / xs.length

/-- Embedding of `np.std(xs, ddof=1)`.  With fewer than two elements the
divisor `n - 1` makes the IEEE result NaN (0/0 for one element, and the
empty case is unreachable behind the engine's emptiness check), modelled
as `none`; otherwise the Bessel-corrected sample standard deviation. -/
noncomputable def sampleStd (xs : List ℝ) : Option ℝ :=
  if xs.length < 2 then none
  else some (Real.sqrt ((xs.map (fun x => (x - listMean xs) ^ 2)).sum
    / ((xs.length : ℝ) - 1)))

/-- Embedding of `validate_risk_free_rate(rate)`: a non-numeric rate is
`InvalidRateType`, a numeric rate outside `[0, 0.3]` is
`RateOutOfRange`. -/
def validate_risk_free_rate : RateInput → Except PyError Unit
  | .nonNum => .error (.sharpeError .invalidRateType)
  | .num r => if ¬(0 ≤ r ∧ r ≤ 3/10) then .error (.sharpeError .rateOutOfRange)
              else .ok ()

/-- Steps 4 to 9 shared by `calculate_sharpe_ratio` and
`sharpe_from_returns`: filter result to valid returns (already done by
the caller), early NaN on an empty list, excess returns against the
per-period rate, mean and Bessel-corrected volatility, the
degenerate-volatility policy, and annualisation.  A NaN volatility
(single valid return) fails the `== 0` test and yields a NaN value. -/
noncomputable def sharpeCore (valid_returns : List ℝ) (r : ℚ)
    (trading_days_per_year : ℕ) : FloatVal :=
  if valid_returns.length = 0 then .nan
  else
    let daily_rf_rate : ℝ := (r : ℝ) / (trading_days_per_year : ℝ)
    let mean_excess := listMean (valid_returns.map (fun x => x - daily_rf_rate))
    match sampleStd valid_returns with
    | none => .nan
    | some vol =>
      if vol = 0 then
        if 0 < mean_excess then .posInf
        else if mean_excess < 0 then .negInf
        else .nan
      else .val (mean_excess / vol * Real.sqrt (trading_days_per_year : ℝ))

/-- Embedding of `calculate_sharpe_ratio(prices, risk_free_rate,
min_years, trading_days_per_year)`.  The source checks the rate inline
with `0 <= risk_free_rate <= 0.3` (it does not call
`validate_risk_free_rate`), so a non-numeric rate raises a raw Python
`TypeError` from the comparison, before and outside the
`try`/`except` block; the `except` block re-raises
`SharpeCalculationError` unchanged and wraps any other exception of the
numeric steps in `CalculationFailed` (no such exception exists in the
exact-real embedding, so the wrap branch is vacuous here). -/
noncomputable def calculate_sharpe (prices : PriceSeries) (risk_free_rate : RateInput)
    (min_years : ℚ) (trading_days_per_year : ℕ) : Except PyError (FloatVal × Bool) :=
  match risk_free_rate with
  | .nonNum => .error .typeError
  | .num r =>
    if ¬(0 ≤ r ∧ r ≤ 3/10) then .error (.sharpeError .rateOutOfRange)
    else
      match calculate_daily_returns prices "log" with
      | .error e => .error e
      | .ok daily_returns =>
        .ok (sharpeCore (daily_returns.filterMap id) r trading_days_per_year,
          !has_sufficient_data prices min_years trading_days_per_year)

/-- One loop iteration of the batch runner: `except SharpeCalculationError`
turns a taxonomy failure into `(NaN, True)`; a raw `TypeError` would not
be caught. -/
noncomputable def batchItem (risk_free_rate : RateInput) (min_years : ℚ)
    (prices : PriceSeries) : Except PyError (FloatVal × Bool) :=
  match calculate_sharpe prices risk_free_rate min_years 252 with
  | .ok res => .ok res
  | .error (.sharpeError _) => .ok (.nan, true)
  | .error .typeError => .error .typeError

/-- Sequential fold of the batch loop over the symbol list. -/
noncomputable def batchGo (risk_free_rate : RateInput) (min_years : ℚ) :
    List (String × PriceSeries) → Except PyError (List (String × (FloatVal × Bool)))
  | [] => .ok []
  | (ticker, prices) :: rest =>
    match batchItem risk_free_rate min_years prices, batchGo risk_free_rate min_years rest with
    | .error e, _ => .error e
    | .ok _, .error e => .error e
    | .ok res, .ok out => .ok ((ticker, res) :: out)

/-- Embedding of `batch_calculate_sharpe_ratios(price_data,
risk_free_rate, min_years)`: the dict is an ordered association list;
the rate is validated once up front, then each symbol is processed
independently. -/
noncomputable def batch_calculate_sharpe (price_data : List (String × PriceSeries))
    (risk_free_rate : RateInput) (min_years : ℚ) :
    Except PyError (List (String × (FloatVal × Bool))) :=
  match validate_risk_free_rate risk_free_rate with
  | .error e => .error e
  | .ok _ => batchGo risk_free_rate min_years price_data

/-- Outcome of one batch entry as the specification describes it: the
engine result when it succeeds, `(NaN, True)` when it fails.  Used to
compare the batch runner against its per-symbol contract. -/
noncomputable def fallbackNaN (res : Except PyError (FloatVal × Bool)) : FloatVal × Bool :=
  match res with
  | .ok v => v
  | .error _ => (.nan, true)

/-- Embedding of `sharpe_from_returns(returns, risk_free_rate,
trading_days_per_year)`: validates the rate through
`validate_risk_free_rate`, then applies the same filtering,
degenerate-volatility and annualisation steps as `calculate_sharpe`
directly to the given return series.  The second match arm for a
non-numeric rate is unreachable because validation already rejected
it. -/
noncomputable def sharpe_from_returns (returns : List (Option ℝ))
    (risk_free_rate : RateInput) (trading_days_per_year : ℕ) :
    Except PyError FloatVal :=
  match validate_risk_free_rate risk_free_rate, risk_free_rate with
  | .error e, _ => .error e
  | .ok _, .nonNum => .error (.sharpeError .invalidRateType)
  | .ok _, .num r => .ok (sharpeCore (returns.filterMap id) r trading_days_per_year)

/-- The valid (non-missing) daily returns of a price series, as filtered
by `daily_returns[~np.isnan(daily_returns)]` inside the engine. -/
noncomputable def validRets (prices : PriceSeries) : List ℝ :=
  (logReturns prices).filterMap id

/-- Helper: sum after subtracting a constant from every element. -/
theorem sum_map_sub_const (xs : List ℝ) (c : ℝ) :
    (xs.map (fun x => x - c)).sum = xs.sum - xs.length * c := by
  induction xs with
  | nil => simp
  | cons a t ih =>
    simp only [List.map_cons, List.sum_cons, List.length_cons, ih]
    push_cast
    ring

/-- Helper: the mean of excess returns is the mean of the raw returns
shifted by the per-period rate. -/
theorem listMean_map_sub (xs : List ℝ) (c : ℝ) (hne : xs ≠ []) :
    listMean (xs.map (fun x => x - c)) = listMean xs - c := by
  have hk : (xs.length : ℝ) ≠ 0 :=
    Nat.cast_ne_zero.mpr (by simpa using hne)
  simp only [listMean, List.length_map, sum_map_sub_const]
  rw [sub_div, mul_comm, mul_div_assoc, div_self hk, mul_one]

/-- Helper: a sample standard deviation that exists is nonnegative. -/
theorem sampleStd_nonneg (xs : List ℝ) (σ : ℝ) (h : sampleStd xs = some σ) :
    0 ≤ σ := by
  unfold sampleStd at h
  by_cases hc : xs.length < 2
  · rw [if_pos hc] at h
    exact absurd h (by simp)
  · rw [if_neg hc, Option.some_inj] at h
    rw [← h]
    exact Real.sqrt_nonneg _

/-- Helper: evaluation of the shared core on a nonempty return list
whose volatility exists and is nonzero. -/
theorem sharpeCore_val (vr : List ℝ) (r : ℚ) (t : ℕ) (σ : ℝ)
    (hne : vr ≠ []) (hstd : sampleStd vr = some σ) (hσ : σ ≠ 0) :
    sharpeCore vr r t =
      .val (listMean (vr.map (fun x => x - (r : ℝ) / (t : ℝ))) / σ *
        Real.sqrt (t : ℝ)) := by
  have hlen : ¬vr.length = 0 := by simpa using hne
  simp only [sharpeCore, if_neg hlen, hstd]
  rw [if_neg hσ]

/-- Helper: evaluation of the shared core on a nonempty return list
with zero volatility: the degenerate policy trichotomy. -/
theorem sharpeCore_zero_vol (vr : List ℝ) (r : ℚ) (t : ℕ)
    (hne : vr ≠ []) (hstd : sampleStd vr = some 0) :
    sharpeCore vr r t =
      if 0 < listMean (vr.map (fun x => x - (r : ℝ) / (t : ℝ))) then .posInf
      else if listMean (vr.map (fun x => x - (r : ℝ) / (t : ℝ))) < 0 then .negInf
      else .nan := by
  have hlen : ¬vr.length = 0 := by simpa using hne
  simp only [sharpeCore, if_neg hlen, hstd]
  simp only [if_true]

/-- Helper: the shared core produces an actual real value only on the
nonempty, existing-nonzero-volatility path, and then that value is the
annualised mean-excess over volatility. -/
theorem sharpeCore_val_inv (vr : List ℝ) (r : ℚ) (t : ℕ) (x : ℝ)
    (h : sharpeCore vr r t = .val x) :
    vr ≠ [] ∧ ∃ σ, sampleStd vr = some σ ∧ σ ≠ 0 ∧
      x = listMean (vr.map (fun y => y - (r : ℝ) / (t : ℝ))) / σ *
        Real.sqrt (t : ℝ) := by
  by_cases hlen : vr.length = 0
  · simp [sharpeCore, hlen] at h
  · have hne : vr ≠ [] := fun hv => hlen (by simp [hv])
    refine ⟨hne, ?_⟩
    cases hstd : sampleStd vr with
    | none => simp [sharpeCore, hlen, hstd] at h
    | some σ =>
      by_cases hσ : σ = 0
      · subst hσ
        rw [sharpeCore_zero_vol vr r t hne hstd] at h
        split_ifs at h
      · rw [sharpeCore_val vr r t σ hne hstd hσ] at h
        injection h with hx
        exact ⟨σ, rfl, hσ, hx.symm⟩

/-- Helper: success of `calculate_daily_returns` forces the log method,
the validations, and the log-return output. -/
theorem calculate_daily_returns_ok_inv (prices : PriceSeries) (method : String)
    (rs : List (Option ℝ)) (h : calculate_daily_returns prices method = .ok rs) :
    rs = logReturns prices ∧ 2 ≤ prices.length ∧
      prices.any isNonPositive = false := by
  unfold calculate_daily_returns at h
  by_cases h1 : method ≠ "log"
  · rw [if_pos h1] at h
    exact absurd h (by simp)
  · rw [if_neg h1] at h
    by_cases h2 : prices.length < 2
    · rw [if_pos h2] at h
      exact absurd h (by simp)
    · rw [if_neg h2] at h
      by_cases h3 : prices.any isNonPositive
      · rw [if_pos h3] at h
        exact absurd h (by simp)
      · rw [if_neg h3] at h
        injection h with h
        exact ⟨h.symm, by omega, by simpa using h3⟩

/-- Helper: a replicated present observation is counted once per copy. -/
theorem countValid_replicate (n : ℕ) (q : ℚ) :
    countValid (List.replicate n (some q)) = n := by
  induction n with
  | zero => rfl
  | succ k ih =>
    simp only [countValid, List.replicate_succ, List.filterMap_cons] at ih ⊢
    simp [ih]

/-- C6: `has_sufficient_data` returns true exactly when the number of
non-missing observations is at least
`⌊min_years * trading_days_per_year⌋` (the source truncates toward zero
with `int()`, which agrees with the floor in every case since a negative
threshold is vacuous either way); with `min_years = 3` and 252 trading
days per year, 756 valid observations are sufficient and 755 are not. -/
theorem C6_sufficiency_floor (prices : PriceSeries) (min_years : ℚ)
    (trading_days_per_year : ℕ) :
    (has_sufficient_data prices min_years trading_days_per_year = true ↔
      ⌊min_years * (trading_days_per_year : ℚ)⌋ ≤ (countValid prices : ℤ)) ∧
    has_sufficient_data (List.replicate 756 (some 1)) 3 252 = true ∧
    has_sufficient_data (List.replicate 755 (some 1)) 3 252 = false := by
  refine ⟨?_, ?_, ?_⟩
  · by_cases h : 0 ≤ min_years * (trading_days_per_year : ℚ)
    · simp [has_sufficient_data, pyInt, if_pos h]
    · push_neg at h
      simp only [has_sufficient_data, pyInt, if_neg (not_le.mpr h)]
      have h1 : (⌈min_years * (trading_days_per_year : ℚ)⌉ : ℤ) ≤ 0 :=
        Int.ceil_le.mpr (by exact_mod_cast h.le)
      have h2 : (⌊min_years * (trading_days_per_year : ℚ)⌋ : ℤ) ≤ 0 :=
        Int.floor_nonpos h.le
      have hc : (0 : ℤ) ≤ (countValid prices : ℤ) := Int.natCast_nonneg _
      simp only [decide_eq_true_eq]
      exact iff_of_true (le_trans h1 hc) (le_trans h2 hc)
  · norm_num [has_sufficient_data, pyInt, countValid_replicate]
  · norm_num [has_sufficient_data, pyInt, countValid_replicate]

/-- C7 counterexample: with `min_years = 0` (which the claim's range
`min_years ≥ 0` admits) the empty series is judged sufficient, because
the required observation count truncates to 0 and `0 ≥ 0` holds, so
`has_sufficient_data` does not return false on every empty input. -/
theorem C7_empty_counterexample :
    has_sufficient_data ([] : PriceSeries) 0 252 = true := by
  norm_num [has_sufficient_data, pyInt, countValid]

/-- C7 amended: `has_sufficient_data` never fails (it is total) and
returns false on the empty series whenever the required observation
count `min_years * trading_days_per_year` is at least 1. -/
theorem C7_empty_insufficient (min_years : ℚ) (trading_days_per_year : ℕ)
    (h : 1 ≤ min_years * (trading_days_per_year : ℚ)) :
    has_sufficient_data ([] : PriceSeries) min_years trading_days_per_year = false := by
  have h0 : 0 ≤ min_years * (trading_days_per_year : ℚ) := le_trans zero_le_one h
  have h1 : (1 : ℤ) ≤ ⌊min_years * (trading_days_per_year : ℚ)⌋ :=
    Int.le_floor.mpr (by exact_mod_cast h)
  simp only [has_sufficient_data, pyInt, if_pos h0, countValid, List.filterMap_nil,
    List.length_nil, decide_eq_false_iff_not]
  omega

/-- Closed instance of the amended C7 at `min_years = 3`, 252 trading
days per year. -/
theorem C7_empty_insufficient_witness :
    (1 : ℚ) ≤ 3 * ((252 : ℕ) : ℚ) ∧
    has_sufficient_data ([] : PriceSeries) 3 252 = false :=
  ⟨by norm_num, C7_empty_insufficient 3 252 (by norm_num)⟩

/-- Helper: a series whose present values are all positive never trips
the non-positive-price check. -/
theorem any_isNonPositive_eq_false (prices : PriceSeries)
    (hpos : ∀ q : ℚ, some q ∈ prices → 0 < q) :
    prices.any isNonPositive = false := by
  rw [List.any_eq_false]
  intro x hx
  cases x with
  | none => simp [isNonPositive]
  | some q =>
    simp only [isNonPositive, decide_eq_true_eq]
    exact not_le.mpr (hpos q hx)

/-- Helper: on a series of length at least 2 whose present values are
all positive, `calculate_daily_returns` succeeds with the log-return
series. -/
theorem calculate_daily_returns_ok (prices : PriceSeries)
    (hlen : 2 ≤ prices.length) (hany : prices.any isNonPositive = false) :
    calculate_daily_returns prices "log" = .ok (logReturns prices) := by
  simp [calculate_daily_returns, Nat.not_lt.mpr hlen, hany]

/-- Helper: a return series is one shorter than its price series. -/
theorem logReturns_length (prices : PriceSeries) :
    (logReturns prices).length = prices.length - 1 := by
  simp only [logReturns, List.length_map, List.length_zip, List.length_tail]
  omega

/-- Helper: the return series of a series with at least two entries
peels off its first entry. -/
theorem logReturns_cons_cons (x y : Option ℚ) (t : List (Option ℚ)) :
    logReturns (x :: y :: t) = logRet x y :: logReturns (y :: t) := rfl

/-- Helper: entry `i` of the return series is the log return of prices
`i` and `i + 1`. -/
theorem logReturns_getElem? (prices : PriceSeries) (i : ℕ) (a b : Option ℚ)
    (ha : prices[i]? = some a) (hb : prices[i + 1]? = some b) :
    (logReturns prices)[i]? = some (logRet a b) := by
  induction prices generalizing i with
  | nil => simp at ha
  | cons x t ih =>
    cases t with
    | nil =>
      rcases i with _ | j <;> simp at hb
    | cons y t' =>
      rw [logReturns_cons_cons]
      rcases i with _ | j
      · simp only [zero_add, List.getElem?_cons_succ, List.getElem?_cons_zero,
          Option.some_inj] at ha hb
        subst ha
        subst hb
        simp
      · rw [List.getElem?_cons_succ] at ha hb
        rw [List.getElem?_cons_succ]
        exact ih j ha hb

/-- C5: on a series of length at least 2 whose present values are all
positive, `calculate_daily_returns` succeeds with a series one shorter,
whose entry `i` is missing exactly when price `i` or price `i + 1` is
missing and otherwise is `ln(P(i+1) / P(i))`; the example
`[100, NaN, 120, 110]` produces missing markers at positions 0 and 1
and the value `ln(110 / 120)` at position 2. -/
theorem C5_missing_propagation :
    (∀ prices : PriceSeries, 2 ≤ prices.length →
      (∀ q : ℚ, some q ∈ prices → 0 < q) →
      calculate_daily_returns prices "log" = .ok (logReturns prices) ∧
      (logReturns prices).length = prices.length - 1 ∧
      (∀ (i : ℕ) (a b : Option ℚ), prices[i]? = some a → prices[i + 1]? = some b →
        (logReturns prices)[i]? = some (logRet a b) ∧
        (logRet a b = none ↔ (a = none ∨ b = none)) ∧
        (∀ x y : ℚ, a = some x → b = some y →
          logRet a b = some (Real.log ((y : ℝ) / (x : ℝ)))))) ∧
    calculate_daily_returns [some 100, none, some 120, some 110] "log" =
      .ok [none, none, some (Real.log ((110 : ℝ) / 120))] := by
  constructor
  · intro prices hlen hpos
    refine ⟨calculate_daily_returns_ok prices hlen
      (any_isNonPositive_eq_false prices hpos), logReturns_length prices, ?_⟩
    intro i a b ha hb
    refine ⟨logReturns_getElem? prices i a b ha hb, ?_, ?_⟩
    · cases a <;> cases b <;> simp [logRet]
    · intro x y hx hy
      subst hx
      subst hy
      rfl
  · rw [calculate_daily_returns_ok _ (by norm_num)
      (by decide)]
    have h120 : ((120 : ℚ) : ℝ) = (120 : ℝ) := by norm_num
    have h110 : ((110 : ℚ) : ℝ) = (110 : ℝ) := by norm_num
    simp [logReturns, logRet, h120, h110]

/-- Closed instance of C5 at the example series from the specification,
obtained by applying the general statement. -/
theorem C5_missing_propagation_witness :
    calculate_daily_returns [some 100, none, some 120, some 110] "log" =
      .ok (logReturns [some 100, none, some 120, some 110]) ∧
    (logReturns [some 100, none, some 120, some 110]).length = 4 - 1 ∧
    (logReturns [some 100, none, some 120, some 110])[2]? =
      some (logRet (some 120) (some 110)) := by
  have h := (C5_missing_propagation.1 [some 100, none, some 120, some 110]
    (by norm_num) (by
      intro q hq
      simp only [List.mem_cons, List.not_mem_nil, or_false] at hq
      rcases hq with h | h | h | h <;> simp_all))
  exact ⟨h.1, h.2.1, (h.2.2 2 (some 120) (some 110) rfl rfl).1⟩

/-- Helper: telescoping sum of the log returns of an all-present
positive series: the returns sum to `log last - log first`. -/
theorem sum_logReturns (a : ℚ) (l : List ℚ) (ha : 0 < a) (hl : ∀ q ∈ l, 0 < q) :
    ((logReturns ((a :: l).map some)).filterMap id).sum =
      Real.log (((a :: l).getLast (List.cons_ne_nil a l) : ℚ) : ℝ) -
        Real.log ((a : ℚ) : ℝ) := by
  induction l generalizing a with
  | nil => simp [logReturns]
  | cons b t ih =>
    have hb : 0 < b := hl b (List.mem_cons_self b t)
    have ht : ∀ q ∈ t, 0 < q := fun q hq => hl q (List.mem_cons_of_mem b hq)
    have hstep : logReturns ((a :: b :: t).map some) =
        some (Real.log (((b : ℚ) : ℝ) / ((a : ℚ) : ℝ))) ::
          logReturns ((b :: t).map some) := rfl
    rw [hstep]
    simp only [List.filterMap_cons, id_eq, List.sum_cons]
    rw [ih b hb ht]
    have hL : (a :: b :: t).getLast (List.cons_ne_nil a (b :: t)) =
        (b :: t).getLast (List.cons_ne_nil b t) := List.getLast_cons_cons a b t
    rw [hL]
    rw [Real.log_div (Rat.cast_pos.mpr hb).ne' (Rat.cast_pos.mpr ha).ne']
    ring

/-- C8: round-trip identity: for an all-present, all-positive price
series of length at least 2, the return computation succeeds and the
sum of the log returns equals `ln(last_price / first_price)` exactly in
real arithmetic (hence within any floating tolerance). -/
theorem C8_round_trip (a : ℚ) (rest : List ℚ) (ha : 0 < a)
    (hrest : ∀ q ∈ rest, 0 < q) (hne : rest ≠ []) :
    calculate_daily_returns ((a :: rest).map some) "log" =
      .ok (logReturns ((a :: rest).map some)) ∧
    ((logReturns ((a :: rest).map some)).filterMap id).sum =
      Real.log ((((a :: rest).getLast (List.cons_ne_nil a rest) : ℚ) : ℝ) /
        ((a : ℚ) : ℝ)) := by
  have hlen : 2 ≤ ((a :: rest).map some).length := by
    simp only [List.length_map, List.length_cons]
    have := List.length_pos.mpr hne
    omega
  have hpos : ∀ q : ℚ, some q ∈ (a :: rest).map some → 0 < q := by
    intro q hq
    simp only [List.mem_map, Option.some.injEq] at hq
    obtain ⟨x, hx, hxq⟩ := hq
    subst hxq
    rcases List.mem_cons.mp hx with h | h
    · exact h ▸ ha
    · exact hrest x h
  have hLpos : 0 < (a :: rest).getLast (List.cons_ne_nil a rest) := by
    rcases List.mem_cons.mp (List.getLast_mem (List.cons_ne_nil a rest)) with h | h
    · rw [h]
      exact ha
    · exact hrest _ h
  refine ⟨calculate_daily_returns_ok _ hlen (any_isNonPositive_eq_false _ hpos), ?_⟩
  rw [sum_logReturns a rest ha hrest,
    Real.log_div (Rat.cast_pos.mpr hLpos).ne' (Rat.cast_pos.mpr ha).ne']

/-- Closed instance of C8 on the series `[1, 2, 4]`: the log returns
sum to `ln 4`. -/
theorem C8_round_trip_witness :
    calculate_daily_returns ([(1 : ℚ), 2, 4].map some) "log" =
      .ok (logReturns ([(1 : ℚ), 2, 4].map some)) ∧
    ((logReturns ([(1 : ℚ), 2, 4].map some)).filterMap id).sum = Real.log 4 := by
  have h := C8_round_trip 1 [2, 4] one_pos
    (by intro q hq; fin_cases hq <;> norm_num) (by simp)
  refine ⟨h.1, ?_⟩
  have h2 := h.2
  norm_num [List.getLast] at h2
  exact h2

/-- C10: validation precedence in `calculate_daily_returns`: a
non-log method fails with UnsupportedMethod whatever the prices; with
the log method, fewer than 2 prices fails with InsufficientPoints even
when a non-positive price is present; and the NonPositivePrice error
can only arise once the method is log and the length is at least 2. -/
theorem C10_validation_order :
    (∀ (prices : PriceSeries) (method : String), method ≠ "log" →
      calculate_daily_returns prices method = .error (.sharpeError .unsupportedMethod)) ∧
    (∀ prices : PriceSeries, prices.length < 2 →
      calculate_daily_returns prices "log" = .error (.sharpeError .insufficientPoints)) ∧
    (∀ prices : PriceSeries,
      calculate_daily_returns prices "log" = .error (.sharpeError .nonPositivePrice) →
      2 ≤ prices.length) := by
  refine ⟨?_, ?_, ?_⟩
  · intro prices method h
    simp [calculate_daily_returns, h]
  · intro prices h
    simp [calculate_daily_returns, h]
  · intro prices h
    by_contra hlen
    push_neg at hlen
    simp [calculate_daily_returns, hlen] at h

/-- Closed instances of C10: a one-element series with a negative price
still reports the method error or the length error first, and the
non-positive-price error implies at least two prices. -/
theorem C10_validation_order_witness :
    calculate_daily_returns [some (-5)] "simple" = .error (.sharpeError .unsupportedMethod) ∧
    calculate_daily_returns [some (-5)] "log" = .error (.sharpeError .insufficientPoints) ∧
    2 ≤ ([some (-5), some 1] : PriceSeries).length :=
  ⟨C10_validation_order.1 [some (-5)] "simple" (by decide),
   C10_validation_order.2.1 [some (-5)] (by decide),
   C10_validation_order.2.2 [some (-5), some 1] rfl⟩

/-- Helper: evaluation of `calculate_sharpe` on the success path of the
return computation, for an in-range numeric rate. -/
theorem calculate_sharpe_ok (prices : PriceSeries) (r min_years : ℚ) (t : ℕ)
    (hr : 0 ≤ r ∧ r ≤ 3/10)
    (hlen : 2 ≤ prices.length) (hany : prices.any isNonPositive = false) :
    calculate_sharpe prices (.num r) min_years t =
      .ok (sharpeCore (validRets prices) r t,
        !has_sufficient_data prices min_years t) := by
  simp only [calculate_sharpe]
  rw [if_neg (not_not_intro hr), calculate_daily_returns_ok prices hlen hany]
  rfl

/-- Helper: a failing return computation propagates unchanged through
`calculate_sharpe` for an in-range numeric rate. -/
theorem calculate_sharpe_err (prices : PriceSeries) (r min_years : ℚ) (t : ℕ)
    (hr : 0 ≤ r ∧ r ≤ 3/10) (e : PyError)
    (he : calculate_daily_returns prices "log" = .error e) :
    calculate_sharpe prices (.num r) min_years t = .error e := by
  simp only [calculate_sharpe]
  rw [if_neg (not_not_intro hr), he]

/-- Helper: a real-valued Sharpe result forces the full success path and
exhibits its volatility. -/
theorem calculate_sharpe_val_inv (prices : PriceSeries) (r min_years : ℚ) (t : ℕ)
    (x : ℝ) (b : Bool)
    (h : calculate_sharpe prices (.num r) min_years t = .ok (.val x, b)) :
    (0 ≤ r ∧ r ≤ 3/10) ∧ validRets prices ≠ [] ∧
      b = !has_sufficient_data prices min_years t ∧
      ∃ σ, sampleStd (validRets prices) = some σ ∧ σ ≠ 0 ∧
        x = listMean ((validRets prices).map (fun y => y - (r : ℝ) / (t : ℝ))) / σ *
          Real.sqrt (t : ℝ) := by
  by_cases hr : 0 ≤ r ∧ r ≤ 3/10
  · cases hret : calculate_daily_returns prices "log" with
    | error e =>
      rw [calculate_sharpe_err prices r min_years t hr e hret] at h
      exact absurd h (by simp)
    | ok rs =>
      obtain ⟨hrs, hlen, hany⟩ := calculate_daily_returns_ok_inv prices "log" rs hret
      rw [calculate_sharpe_ok prices r min_years t hr hlen hany] at h
      injection h with h
      have hcore : sharpeCore (validRets prices) r t = .val x := congrArg Prod.fst h
      have hb : b = !has_sufficient_data prices min_years t :=
        (congrArg Prod.snd h).symm
      obtain ⟨hne, hσ⟩ := sharpeCore_val_inv (validRets prices) r t x hcore
      exact ⟨hr, hne, hb, hσ⟩
  · simp only [calculate_sharpe] at h
    rw [if_pos hr] at h
    exact absurd h (by simp)

/-- Helper: the valid returns of the price series `[1, 2, 1]`. -/
theorem validRets_121 :
    validRets [some 1, some 2, some 1] = [Real.log 2, -Real.log 2] := by
  have h : validRets [some 1, some 2, some 1] =
      [Real.log (((2 : ℚ) : ℝ) / ((1 : ℚ) : ℝ)),
       Real.log (((1 : ℚ) : ℝ) / ((2 : ℚ) : ℝ))] := rfl
  rw [h]
  push_cast
  norm_num
  rw [one_div, Real.log_inv]

/-- Helper: the two returns of `[1, 2, 1]` average to zero. -/
theorem listMean_121 : listMean [Real.log 2, -Real.log 2] = 0 := by
  simp [listMean]

/-- Helper: sample standard deviation of the returns of `[1, 2, 1]`. -/
theorem sampleStd_121 :
    sampleStd [Real.log 2, -Real.log 2] = some (Real.sqrt (2 * Real.log 2 ^ 2)) := by
  unfold sampleStd
  rw [if_neg (by norm_num), Option.some_inj]
  congr 1
  simp only [listMean_121, List.map_cons, List.map_nil, List.sum_cons, List.sum_nil,
    List.length_cons, List.length_nil]
  push_cast
  norm_num
  ring

/-- Helper: the volatility of `[1, 2, 1]` is positive. -/
theorem sqrt_two_logsq_pos : 0 < Real.sqrt (2 * Real.log 2 ^ 2) := by
  have hl : 0 < Real.log 2 := Real.log_pos one_lt_two
  exact Real.sqrt_pos.mpr (mul_pos two_pos (pow_pos hl 2))

/-- Helper: mean excess return of `[1, 2, 1]` at per-period rate `c`. -/
theorem meanExcess_121 (c : ℝ) :
    listMean ([Real.log 2, -Real.log 2].map (fun x => x - c)) = -c := by
  rw [listMean_map_sub _ _ (by simp), listMean_121]
  ring

/-- Helper: present values of `[1, 2, 1]` are positive. -/
theorem pos_121 : ∀ q : ℚ, some q ∈ ([some 1, some 2, some 1] : PriceSeries) → 0 < q := by
  intro q hq
  simp only [List.mem_cons, List.not_mem_nil, or_false] at hq
  rcases hq with h | h | h <;> simp_all

/-- Helper: full evaluation of the engine on `[1, 2, 1]` for any
in-range numeric rate. -/
theorem sharpe121 (r : ℚ) (hr : 0 ≤ r ∧ r ≤ 3/10) :
    calculate_sharpe [some 1, some 2, some 1] (.num r) 3 252 =
      .ok (.val (-(((r : ℚ) : ℝ) / ((252 : ℕ) : ℝ)) / Real.sqrt (2 * Real.log 2 ^ 2) *
        Real.sqrt ((252 : ℕ) : ℝ)), true) := by
  rw [calculate_sharpe_ok _ r 3 252 hr (by norm_num)
    (any_isNonPositive_eq_false _ pos_121)]
  rw [show validRets [some 1, some 2, some 1] = [Real.log 2, -Real.log 2] from validRets_121]
  rw [sharpeCore_val _ r 252 _ (by simp) sampleStd_121 sqrt_two_logsq_pos.ne']
  rw [meanExcess_121]
  norm_num [has_sufficient_data, pyInt, countValid]
  decide

/-- C1: for a price series of length at least 2 whose present prices
are all positive, an in-range numeric risk-free rate, a nonempty
valid-return list and an existing nonzero Bessel-corrected sample
standard deviation of the raw valid returns, `calculate_sharpe_ratio`
returns the ratio `mean(r - rf/tdpy) / sample_std(r) * sqrt(tdpy)`
(volatility taken over the raw returns, not the excess returns),
together with the partial-data flag. -/
theorem C1_sharpe_formula (prices : PriceSeries) (r min_years : ℚ)
    (t : ℕ) (σ : ℝ)
    (hr : 0 ≤ r ∧ r ≤ 3/10)
    (hlen : 2 ≤ prices.length)
    (hpos : ∀ q : ℚ, some q ∈ prices → 0 < q)
    (hne : validRets prices ≠ [])
    (hstd : sampleStd (validRets prices) = some σ) (hσ : σ ≠ 0) :
    calculate_sharpe prices (.num r) min_years t =
      .ok (.val (listMean ((validRets prices).map (fun x => x - (r : ℝ) / (t : ℝ))) / σ *
        Real.sqrt (t : ℝ)), !has_sufficient_data prices min_years t) := by
  rw [calculate_sharpe_ok prices r min_years t hr hlen
    (any_isNonPositive_eq_false prices hpos)]
  rw [sharpeCore_val (validRets prices) r t σ hne hstd hσ]

/-- Closed instance of C1 on `[1, 2, 1]` at rate 0: the mean excess
return is 0 and the ratio is 0, with the partial flag set. -/
theorem C1_sharpe_formula_witness :
    calculate_sharpe [some 1, some 2, some 1] (.num 0) 3 252 = .ok (.val 0, true) := by
  have h := C1_sharpe_formula [some 1, some 2, some 1] 0 3 252
    (Real.sqrt (2 * Real.log 2 ^ 2)) (by norm_num) (by norm_num) pos_121
    (by rw [validRets_121]; simp)
    (by rw [validRets_121]; exact sampleStd_121) sqrt_two_logsq_pos.ne'
  rw [h, validRets_121, meanExcess_121]
  norm_num [has_sufficient_data, pyInt, countValid]
  decide

/-- C9: for a fixed price series and two in-range rates `r1 < r2`, if
`calculate_sharpe_ratio` returns finite (actual real) ratios for both,
the ratio at the larger rate is at most the ratio at the smaller rate,
and strictly smaller (a finite ratio forces nonzero volatility). -/
theorem C9_rate_monotonicity (prices : PriceSeries) (r1 r2 min_years : ℚ)
    (t : ℕ) (x1 x2 : ℝ) (b1 b2 : Bool)
    (_h0 : 0 ≤ r1) (h12 : r1 < r2) (_h3 : r2 ≤ 3/10) (ht : 0 < t)
    (h1 : calculate_sharpe prices (.num r1) min_years t = .ok (.val x1, b1))
    (h2 : calculate_sharpe prices (.num r2) min_years t = .ok (.val x2, b2)) :
    x2 ≤ x1 ∧ x2 < x1 := by
  obtain ⟨hr1, hne, hb1, σ, hstd, hσ, hx1⟩ :=
    calculate_sharpe_val_inv prices r1 min_years t x1 b1 h1
  obtain ⟨hr2, -, hb2, σ', hstd', hσ', hx2⟩ :=
    calculate_sharpe_val_inv prices r2 min_years t x2 b2 h2
  have hσσ : σ' = σ := by
    rw [hstd] at hstd'
    exact (Option.some_inj.mp hstd').symm
  rw [hσσ] at hx2
  have hσpos : 0 < σ :=
    lt_of_le_of_ne (sampleStd_nonneg _ σ hstd) (Ne.symm hσ)
  have hsq : 0 < Real.sqrt (t : ℝ) :=
    Real.sqrt_pos.mpr (by exact_mod_cast ht)
  have htR : (0 : ℝ) < (t : ℝ) := by exact_mod_cast ht
  rw [hx1, hx2, listMean_map_sub _ _ hne, listMean_map_sub _ _ hne]
  have hrr : ((r1 : ℚ) : ℝ) / (t : ℝ) < ((r2 : ℚ) : ℝ) / (t : ℝ) :=
    (div_lt_div_iff_of_pos_right htR).mpr (by exact_mod_cast h12)
  have hAB : listMean (validRets prices) - ((r2 : ℚ) : ℝ) / (t : ℝ) <
      listMean (validRets prices) - ((r1 : ℚ) : ℝ) / (t : ℝ) := by linarith
  have hlt := mul_lt_mul_of_pos_right ((div_lt_div_iff_of_pos_right hσpos).mpr hAB) hsq
  exact ⟨le_of_lt hlt, hlt⟩

/-- Closed instance of C9 on `[1, 2, 1]` with rates 0 and 1/10: both
ratios are finite and the one at the larger rate is smaller. -/
theorem C9_rate_monotonicity_witness :
    calculate_sharpe [some 1, some 2, some 1] (.num 0) 3 252 =
      .ok (.val (-(((0 : ℚ) : ℝ) / ((252 : ℕ) : ℝ)) / Real.sqrt (2 * Real.log 2 ^ 2) *
        Real.sqrt ((252 : ℕ) : ℝ)), true) ∧
    calculate_sharpe [some 1, some 2, some 1] (.num (1/10)) 3 252 =
      .ok (.val (-((((1 : ℚ)/10) : ℝ) / ((252 : ℕ) : ℝ)) / Real.sqrt (2 * Real.log 2 ^ 2) *
        Real.sqrt ((252 : ℕ) : ℝ)), true) ∧
    -((((1 : ℚ)/10) : ℝ) / ((252 : ℕ) : ℝ)) / Real.sqrt (2 * Real.log 2 ^ 2) *
        Real.sqrt ((252 : ℕ) : ℝ) <
      -(((0 : ℚ) : ℝ) / ((252 : ℕ) : ℝ)) / Real.sqrt (2 * Real.log 2 ^ 2) *
        Real.sqrt ((252 : ℕ) : ℝ) := by
  have e1 := sharpe121 0 (by norm_num)
  have e2 := sharpe121 (1/10) (by norm_num)
  have hcast : ((((1 : ℚ)/10) : ℚ) : ℝ) = (((1 : ℚ)/10) : ℝ) := by push_cast; ring
  refine ⟨e1, by rw [e2]; norm_num, ?_⟩
  have h := C9_rate_monotonicity [some 1, some 2, some 1] 0 (1/10) 3 252 _ _ true true
    le_rfl (by norm_num) (by norm_num) (by norm_num) e1 e2
  have h2 := h.2
  push_cast at h2 ⊢
  exact h2

/-- Helper: filtering a replicated present value keeps every copy. -/
theorem filterMap_id_replicate {α : Type} (n : ℕ) (x : α) :
    (List.replicate n (some x)).filterMap id = List.replicate n x := by
  induction n with
  | zero => rfl
  | succ k ih => simp [List.replicate_succ, ih]

/-- Helper: returns of a constant series are the constant log return. -/
theorem logReturns_replicate (n : ℕ) (q : ℚ) :
    logReturns (List.replicate (n + 1) (some q)) =
      List.replicate n (logRet (some q) (some q)) := by
  induction n with
  | zero => rfl
  | succ k ih =>
    have h1 : List.replicate (k + 2) (some q) =
        some q :: some q :: List.replicate k (some q) := rfl
    have h2 : List.replicate (k + 1) (some q) =
        some q :: List.replicate k (some q) := rfl
    rw [h1, logReturns_cons_cons, ← h2, ih]
    rfl

/-- Helper: the valid returns of a constant positive series are all 0. -/
theorem validRets_replicate (n : ℕ) (q : ℚ) (hq : q ≠ 0) :
    validRets (List.replicate (n + 1) (some q)) = List.replicate n (0 : ℝ) := by
  have hlog : logRet (some q) (some q) = some (0 : ℝ) := by
    have hq' : ((q : ℚ) : ℝ) ≠ 0 := Rat.cast_ne_zero.mpr hq
    simp [logRet, div_self hq', Real.log_one]
  rw [validRets, logReturns_replicate n q, hlog, filterMap_id_replicate]

/-- Helper: the mean of a constant list is the constant. -/
theorem listMean_replicate (n : ℕ) (a : ℝ) (hn : n ≠ 0) :
    listMean (List.replicate n a) = a := by
  have hnR : ((n : ℝ)) ≠ 0 := Nat.cast_ne_zero.mpr hn
  simp only [listMean, List.sum_replicate, List.length_replicate, nsmul_eq_mul]
  rw [mul_comm, mul_div_assoc, div_self hnR, mul_one]

/-- Helper: a constant list of at least two elements has sample
standard deviation exactly 0. -/
theorem sampleStd_replicate (n : ℕ) (a : ℝ) (hn : 2 ≤ n) :
    sampleStd (List.replicate n a) = some 0 := by
  unfold sampleStd
  rw [if_neg (by simp; omega)]
  rw [Option.some_inj]
  rw [listMean_replicate n a (by omega)]
  rw [List.map_replicate]
  simp [Real.sqrt_eq_zero']

/-- Helper: mean of a constant list shifted by a constant. -/
theorem listMean_replicate_sub (n : ℕ) (a c : ℝ) (hn : n ≠ 0) :
    listMean ((List.replicate n a).map (fun x => x - c)) = a - c := by
  rw [List.map_replicate, listMean_replicate n (a - c) hn]

/-- Helper: a nonempty replicate list is not nil. -/
theorem replicate_ne_nil_r (n : ℕ) (a : ℝ) (hn : n ≠ 0) :
    List.replicate n a ≠ [] := by
  intro h
  have hl := congrArg List.length h
  rw [List.length_replicate] at hl
  exact hn (by simpa using hl)

/-- C2: when the ratio step is reached with at least one valid return
and the Bessel-corrected sample standard deviation is exactly 0, the
returned ratio is +inf when the mean excess return is positive, -inf
when it is negative and NaN when it is zero; the same policy holds in
`sharpe_from_returns`; in particular a constant price series of 1000
copies of 100 gives NaN at rate 0 and -inf at rate 0.05. -/
theorem C2_degenerate_volatility :
    (∀ (prices : PriceSeries) (r min_years : ℚ) (t : ℕ),
      0 ≤ r → r ≤ 3/10 → 2 ≤ prices.length →
      (∀ q : ℚ, some q ∈ prices → 0 < q) →
      validRets prices ≠ [] →
      sampleStd (validRets prices) = some 0 →
      calculate_sharpe prices (.num r) min_years t =
        .ok ((if 0 < listMean ((validRets prices).map (fun x => x - (r : ℝ) / (t : ℝ)))
            then .posInf
            else if listMean ((validRets prices).map (fun x => x - (r : ℝ) / (t : ℝ))) < 0
            then .negInf else .nan),
          !has_sufficient_data prices min_years t)) ∧
    (∀ (returns : List (Option ℝ)) (r : ℚ) (t : ℕ),
      0 ≤ r → r ≤ 3/10 →
      returns.filterMap id ≠ [] →
      sampleStd (returns.filterMap id) = some 0 →
      sharpe_from_returns returns (.num r) t =
        .ok (if 0 < listMean ((returns.filterMap id).map (fun x => x - (r : ℝ) / (t : ℝ)))
          then .posInf
          else if listMean ((returns.filterMap id).map (fun x => x - (r : ℝ) / (t : ℝ))) < 0
          then .negInf else .nan)) ∧
    calculate_sharpe (List.replicate 1000 (some 100)) (.num 0) 3 252 = .ok (.nan, false) ∧
    calculate_sharpe (List.replicate 1000 (some 100)) (.num (1/20)) 3 252 =
      .ok (.negInf, false) := by
  have hA : ∀ (prices : PriceSeries) (r min_years : ℚ) (t : ℕ),
      0 ≤ r → r ≤ 3/10 → 2 ≤ prices.length →
      (∀ q : ℚ, some q ∈ prices → 0 < q) →
      validRets prices ≠ [] →
      sampleStd (validRets prices) = some 0 →
      calculate_sharpe prices (.num r) min_years t =
        .ok ((if 0 < listMean ((validRets prices).map (fun x => x - (r : ℝ) / (t : ℝ)))
            then .posInf
            else if listMean ((validRets prices).map (fun x => x - (r : ℝ) / (t : ℝ))) < 0
            then .negInf else .nan),
          !has_sufficient_data prices min_years t) := by
    intro prices r min_years t hr0 hr3 hlen hpos hne hstd
    rw [calculate_sharpe_ok prices r min_years t ⟨hr0, hr3⟩ hlen
      (any_isNonPositive_eq_false prices hpos)]
    rw [sharpeCore_zero_vol (validRets prices) r t hne hstd]
  have hvr : validRets (List.replicate 1000 (some 100)) = List.replicate 999 (0 : ℝ) :=
    validRets_replicate 999 100 (by norm_num)
  have hrep : ∀ r : ℚ, 0 ≤ r → r ≤ 3/10 →
      calculate_sharpe (List.replicate 1000 (some 100)) (.num r) 3 252 =
        .ok ((if 0 < -((r : ℝ) / ((252 : ℕ) : ℝ)) then .posInf
          else if -((r : ℝ) / ((252 : ℕ) : ℝ)) < 0 then .negInf else .nan), false) := by
    intro r hr0 hr3
    rw [hA (List.replicate 1000 (some 100)) r 3 252 hr0 hr3
      (by rw [List.length_replicate]; norm_num)
      (by intro q hq
          have h := List.eq_of_mem_replicate hq
          injection h with h
          rw [h]
          norm_num)
      (by rw [hvr]; exact replicate_ne_nil_r 999 0 (by norm_num))
      (by rw [hvr]; exact sampleStd_replicate 999 0 (by norm_num))]
    rw [hvr, listMean_replicate_sub 999 0 _ (by norm_num)]
    norm_num [has_sufficient_data, pyInt, countValid_replicate]
  refine ⟨hA, ?_, ?_, ?_⟩
  · intro returns r t hr0 hr3 hne hstd
    have hval : validate_risk_free_rate (.num r) = .ok () := by
      simp only [validate_risk_free_rate]
      rw [if_neg (not_not_intro ⟨hr0, hr3⟩)]
    simp only [sharpe_from_returns, hval]
    rw [sharpeCore_zero_vol _ r t hne hstd]
  · rw [hrep 0 le_rfl (by norm_num)]
    norm_num
  · rw [hrep (1/20) (by norm_num) (by norm_num)]
    norm_num

/-- Closed instance of C2: three constant prices at rate 0.05 give
-inf with the partial flag, and a two-entry zero return series at rate
0.05 gives -inf in `sharpe_from_returns`. -/
theorem C2_degenerate_volatility_witness :
    calculate_sharpe (List.replicate 3 (some 1)) (.num (1/20)) 3 252 =
      .ok (.negInf, true) ∧
    sharpe_from_returns [some 0, some 0] (.num (1/20)) 252 = .ok .negInf := by
  have hvr : validRets (List.replicate 3 (some 1)) = List.replicate 2 (0 : ℝ) :=
    validRets_replicate 2 1 (by norm_num)
  constructor
  · rw [C2_degenerate_volatility.1 (List.replicate 3 (some 1)) (1/20) 3 252
      (by norm_num) (by norm_num) (by rw [List.length_replicate]; norm_num)
      (by intro q hq
          have h := List.eq_of_mem_replicate hq
          injection h with h
          rw [h]
          norm_num)
      (by rw [hvr]; exact replicate_ne_nil_r 2 0 (by norm_num))
      (by rw [hvr]; exact sampleStd_replicate 2 0 (by norm_num))]
    rw [hvr, listMean_replicate_sub 2 0 _ (by norm_num)]
    norm_num [has_sufficient_data, pyInt, countValid_replicate]
  · have hfm : ([some 0, some 0] : List (Option ℝ)).filterMap id =
        List.replicate 2 (0 : ℝ) := rfl
    rw [C2_degenerate_volatility.2.1 [some 0, some 0] (1/20) 252
      (by norm_num) (by norm_num) (by rw [hfm]; exact replicate_ne_nil_r 2 0 (by norm_num))
      (by rw [hfm]; exact sampleStd_replicate 2 0 (by norm_num))]
    rw [hfm, listMean_replicate_sub 2 0 _ (by norm_num)]
    norm_num

/-- Helper: every error of `calculate_daily_returns` is a taxonomy
error, never the raw TypeError. -/
theorem calculate_daily_returns_err_not_type (prices : PriceSeries) (method : String)
    (e : PyError) (h : calculate_daily_returns prices method = .error e) :
    e ≠ .typeError := by
  unfold calculate_daily_returns at h
  by_cases h1 : method ≠ "log"
  · rw [if_pos h1] at h
    injection h with h
    subst h
    simp
  · rw [if_neg h1] at h
    by_cases h2 : prices.length < 2
    · rw [if_pos h2] at h
      injection h with h
      subst h
      simp
    · rw [if_neg h2] at h
      by_cases h3 : prices.any isNonPositive
      · rw [if_pos h3] at h
        injection h with h
        subst h
        simp
      · rw [if_neg h3] at h
        exact absurd h (by simp)

/-- Helper: with a numeric rate, `calculate_sharpe_ratio` never raises
the raw TypeError; every failure stays in the taxonomy. -/
theorem calculate_sharpe_num_not_type (prices : PriceSeries) (r min_years : ℚ)
    (t : ℕ) (e : PyError)
    (h : calculate_sharpe prices (.num r) min_years t = .error e) :
    e ≠ .typeError := by
  by_cases hr : 0 ≤ r ∧ r ≤ 3/10
  · cases hret : calculate_daily_returns prices "log" with
    | error e' =>
      rw [calculate_sharpe_err prices r min_years t hr e' hret] at h
      injection h with h
      exact h ▸ calculate_daily_returns_err_not_type prices "log" e' hret
    | ok rs =>
      obtain ⟨-, hlen, hany⟩ := calculate_daily_returns_ok_inv prices "log" rs hret
      rw [calculate_sharpe_ok prices r min_years t hr hlen hany] at h
      exact absurd h (by simp)
  · simp only [calculate_sharpe] at h
    rw [if_pos hr] at h
    injection h with h
    exact h ▸ (by simp : PyError.sharpeError .rateOutOfRange ≠ .typeError)

/-- C3 counterexample: `calculate_sharpe_ratio` checks the rate inline
with `0 <= rate <= 0.3` and never calls `validate_risk_free_rate`, so a
non-numeric rate raises a raw TypeError from the comparison — outside
the taxonomy and in particular not InvalidRateType. -/
theorem C3_nonnumeric_counterexample :
    calculate_sharpe [some 100, some 101] .nonNum 3 252 = .error .typeError ∧
    PyError.typeError ≠ .sharpeError .invalidRateType :=
  ⟨rfl, by simp⟩

/-- C3 amended: with a numeric rate every failure of
`calculate_sharpe_ratio` stays inside the closed taxonomy (never the
raw TypeError); a non-numeric rate instead escapes as a raw TypeError
from the inline comparison, and the InvalidRateType check lives only in
`validate_risk_free_rate`. -/
theorem C3_error_taxonomy :
    (∀ (prices : PriceSeries) (r min_years : ℚ) (t : ℕ) (e : PyError),
      calculate_sharpe prices (.num r) min_years t = .error e → e ≠ .typeError) ∧
    (∀ (prices : PriceSeries) (min_years : ℚ) (t : ℕ),
      calculate_sharpe prices .nonNum min_years t = .error .typeError) ∧
    validate_risk_free_rate .nonNum = .error (.sharpeError .invalidRateType) := by
  refine ⟨?_, ?_, rfl⟩
  · intro prices r min_years t e h
    exact calculate_sharpe_num_not_type prices r min_years t e h
  · intro prices min_years t
    rfl

/-- Closed instance of C3: a short series fails with the taxonomy error
InsufficientPoints, which is not the raw TypeError. -/
theorem C3_error_taxonomy_witness :
    calculate_sharpe [some 100] (.num 0) 3 252 =
      .error (.sharpeError .insufficientPoints) ∧
    PyError.sharpeError .insufficientPoints ≠ .typeError := by
  have he : calculate_sharpe [some 100] (.num 0) 3 252 =
      .error (.sharpeError .insufficientPoints) :=
    calculate_sharpe_err [some 100] 0 3 252 (by norm_num) _
      (by simp [calculate_daily_returns])
  exact ⟨he, C3_error_taxonomy.1 [some 100] 0 3 252 _ he⟩

/-- Helper: for a valid numeric rate the batch loop runs to completion,
recording each symbol's engine result or the NaN fallback. -/
theorem batchGo_ok (r min_years : ℚ)
    (data : List (String × PriceSeries)) :
    batchGo (.num r) min_years data =
      .ok (data.map (fun tp =>
        (tp.1, fallbackNaN (calculate_sharpe tp.2 (.num r) min_years 252)))) := by
  induction data with
  | nil => rfl
  | cons hd tl ih =>
    obtain ⟨ticker, prices⟩ := hd
    have hitem : batchItem (.num r) min_years prices =
        .ok (fallbackNaN (calculate_sharpe prices (.num r) min_years 252)) := by
      unfold batchItem fallbackNaN
      cases hres : calculate_sharpe prices (.num r) min_years 252 with
      | ok v => rfl
      | error e =>
        cases e with
        | sharpeError se => rfl
        | typeError =>
          exact absurd rfl (calculate_sharpe_num_not_type prices r min_years 252 _ hres)
    simp only [batchGo, hitem, ih, List.map_cons]

/-- C4: the batch runner validates the rate once up front — an invalid
or non-numeric rate fails the whole batch before any symbol is
processed — and otherwise returns one entry per input symbol in order,
each bound to the engine result for its series, with per-symbol
failures replaced by `(NaN, True)`; no symbol is dropped. -/
theorem C4_batch_isolation :
    (∀ (data : List (String × PriceSeries)) (r min_years : ℚ),
      0 ≤ r → r ≤ 3/10 →
      batch_calculate_sharpe data (.num r) min_years =
        .ok (data.map (fun tp =>
          (tp.1, fallbackNaN (calculate_sharpe tp.2 (.num r) min_years 252))))) ∧
    (∀ (data : List (String × PriceSeries)) (out : List (String × (FloatVal × Bool)))
      (rf : RateInput) (min_years : ℚ),
      batch_calculate_sharpe data rf min_years = .ok out →
      out.map Prod.fst = data.map Prod.fst) ∧
    (∀ (data : List (String × PriceSeries)) (r min_years : ℚ),
      ¬(0 ≤ r ∧ r ≤ 3/10) →
      batch_calculate_sharpe data (.num r) min_years =
        .error (.sharpeError .rateOutOfRange)) ∧
    (∀ (data : List (String × PriceSeries)) (min_years : ℚ),
      batch_calculate_sharpe data .nonNum min_years =
        .error (.sharpeError .invalidRateType)) := by
  have h1 : ∀ (data : List (String × PriceSeries)) (r min_years : ℚ),
      0 ≤ r → r ≤ 3/10 →
      batch_calculate_sharpe data (.num r) min_years =
        .ok (data.map (fun tp =>
          (tp.1, fallbackNaN (calculate_sharpe tp.2 (.num r) min_years 252)))) := by
    intro data r min_years hr0 hr3
    have hval : validate_risk_free_rate (.num r) = .ok () := by
      simp only [validate_risk_free_rate]
      rw [if_neg (not_not_intro ⟨hr0, hr3⟩)]
    unfold batch_calculate_sharpe
    rw [hval]
    exact batchGo_ok r min_years data
  have h3 : ∀ (data : List (String × PriceSeries)) (r min_years : ℚ),
      ¬(0 ≤ r ∧ r ≤ 3/10) →
      batch_calculate_sharpe data (.num r) min_years =
        .error (.sharpeError .rateOutOfRange) := by
    intro data r min_years hr
    have hval : validate_risk_free_rate (.num r) =
        .error (.sharpeError .rateOutOfRange) := by
      simp only [validate_risk_free_rate]
      rw [if_pos hr]
    unfold batch_calculate_sharpe
    rw [hval]
  refine ⟨h1, ?_, h3, fun data min_years => rfl⟩
  intro data out rf min_years h
  cases rf with
  | nonNum => simp [batch_calculate_sharpe, validate_risk_free_rate] at h
  | num r =>
    by_cases hr : 0 ≤ r ∧ r ≤ 3/10
    · rw [h1 data r min_years hr.1 hr.2] at h
      injection h with h
      rw [← h, List.map_map]
      rfl
    · rw [h3 data r min_years hr] at h
      exact absurd h (by simp)

/-- Closed instance of C4: a good symbol gets its computed ratio, a bad
one (a single price) gets `(NaN, True)`, and both keys survive. -/
theorem C4_batch_isolation_witness :
    batch_calculate_sharpe [("GOOD", [some 1, some 2, some 1]), ("BAD", [some 100])]
      (.num 0) 3 = .ok [("GOOD", (.val 0, true)), ("BAD", (.nan, true))] := by
  rw [C4_batch_isolation.1 [("GOOD", [some 1, some 2, some 1]), ("BAD", [some 100])]
    0 3 le_rfl (by norm_num)]
  have hGood : calculate_sharpe [some 1, some 2, some 1] (.num 0) 3 252 =
      .ok (.val (-(((0 : ℚ) : ℝ) / ((252 : ℕ) : ℝ)) / Real.sqrt (2 * Real.log 2 ^ 2) *
        Real.sqrt ((252 : ℕ) : ℝ)), true) := sharpe121 0 (by norm_num)
  have hBad : calculate_sharpe [some 100] (.num 0) 3 252 =
      .error (.sharpeError .insufficientPoints) :=
    calculate_sharpe_err [some 100] 0 3 252 (by norm_num) _
      (by simp [calculate_daily_returns])
  simp only [List.map_cons, List.map_nil, hGood, hBad, fallbackNaN]
  norm_num

end SharpeSpec
